import Mathlib

/-!
Verification development for the prodtracker trust-and-enforcement pipeline.

The Python sources are shallowly embedded:
* file contents are `List Char`; Python's `for line in f` line iteration is
  `splitLines` (lines keep their trailing newline, a last fragment without a
  newline is still a line);
* timestamps are integers (seconds since epoch for the Redis-side code,
  microseconds since epoch for `datetime` values);
* Redis structures are in-memory association lists; the sorted-set member
  dedup of `zadd` is not modelled (duplicate members carry identical data);
* HMAC-SHA256 (`hmac`/`hashlib`, external library code) is an abstract
  parameter `mac : String → String → String` returning the hex digest.
-/

set_option maxHeartbeats 1000000

namespace ProdTracker

/-! ### List-of-characters utilities (substring search and line splitting) -/

/-- Boolean test that `pat` is an initial segment of `l`. -/
def firstSeg : List Char → List Char → Bool
  | [], _ => true
  | _ :: _, [] => false
  | a :: as, b :: bs => a == b && firstSeg as bs

/-- Boolean substring containment, mirroring Python's `in` on strings:
`hasSub pat l = true` iff `pat` occurs contiguously inside `l`. -/
def hasSub (pat : List Char) : List Char → Bool
  | [] => firstSeg pat []
  | c :: rest => firstSeg pat (c :: rest) || hasSub pat rest

theorem firstSeg_self_append (pat t : List Char) : firstSeg pat (pat ++ t) = true := by
  induction pat with
  | nil => rfl
  | cons a as ih => simp [firstSeg, ih]

/-- If `pat` occurs contiguously in `l` then `hasSub pat l = true`
(the direction needed to discharge marker-containment obligations). -/
theorem hasSub_of_append (pat a b : List Char) : hasSub pat (a ++ pat ++ b) = true := by
  induction a with
  | nil =>
    cases h : pat ++ b with
    | nil =>
      have hp : pat = [] := by
        cases pat with
        | nil => rfl
        | cons x xs => simp at h
      have hb : b = [] := by
        rw [hp] at h; simpa using h
      simp [hp, hb, hasSub, firstSeg]
    | cons c rest =>
      simp only [List.nil_append, h, hasSub, Bool.or_eq_true]
      left
      rw [← h]
      exact firstSeg_self_append pat b
  | cons c cs ih =>
    simp only [List.cons_append, hasSub, Bool.or_eq_true]
    right
    exact ih

/-- Prepend a character to the first line of a line list (helper for `splitLines`). -/
def consHead (c : Char) : List (List Char) → List (List Char)
  | [] => [[c]]
  | l :: ls => (c :: l) :: ls

/-- Split a file's characters into lines the way Python's file iteration does:
every line keeps its trailing `'\n'`; a final fragment with no newline is a
line of its own; the empty file has no lines. -/
def splitLines : List Char → List (List Char)
  | [] => []
  | c :: rest => if c = '\n' then ['\n'] :: splitLines rest else consHead c (splitLines rest)

theorem flatten_consHead (c : Char) (ls : List (List Char)) :
    (consHead c ls).flatten = c :: ls.flatten := by
  cases ls <;> simp [consHead]

/-- Recombining the lines of a file gives back the file (`f.writelines` of
`f.readlines` is the identity). -/
theorem flatten_splitLines (s : List Char) : (splitLines s).flatten = s := by
  induction s with
  | nil => rfl
  | cons c rest ih =>
    by_cases h : c = '\n'
    · simp [splitLines, h, ih]
    · simp [splitLines, h, flatten_consHead, ih]

theorem splitLines_newline_terminated (core t : List Char) (h : '\n' ∉ core) :
    splitLines (core ++ '\n' :: t) = (core ++ ['\n']) :: splitLines t := by
  induction core with
  | nil => simp [splitLines]
  | cons c cs ih =>
    have hc : c ≠ '\n' := by
      intro hc; exact h (by simp [hc])
    have hcs : '\n' ∉ cs := fun hm => h (by simp [hm])
    simp [splitLines, hc, ih hcs, consHead]

theorem splitLines_no_newline (s : List Char) (hne : s ≠ []) (h : '\n' ∉ s) :
    splitLines s = [s] := by
  induction s with
  | nil => exact absurd rfl hne
  | cons c cs ih =>
    have hc : c ≠ '\n' := by
      intro hc; exact h (by simp [hc])
    have hcs : '\n' ∉ cs := fun hm => h (by simp [hm])
    by_cases hn : cs = []
    · subst hn; simp [splitLines, hc, consHead]
    · simp [splitLines, hc, ih hn hcs, consHead]

/-- Well-formed line lists: the output shape of `splitLines` — every line is
nonempty, all lines end with a newline and have no interior newline, except
that the final line may instead contain no newline at all. -/
inductive WfLines : List (List Char) → Prop
  | nil : WfLines []
  | last (o : List Char) (hne : o ≠ []) (hnl : '\n' ∉ o) : WfLines [o]
  | closed (core : List Char) (ls : List (List Char)) (hnl : '\n' ∉ core)
      (h : WfLines ls) : WfLines ((core ++ ['\n']) :: ls)

theorem wfLines_consHead (c : Char) (hc : c ≠ '\n') (ls : List (List Char))
    (h : WfLines ls) : WfLines (consHead c ls) := by
  have hcs : ∀ o : List Char, '\n' ∉ o → '\n' ∉ c :: o := by
    intro o hnl hm
    rcases List.mem_cons.mp hm with h1 | h1
    · exact hc h1.symm
    · exact hnl h1
  cases h with
  | nil => exact WfLines.last [c] (by simp) (hcs [] (by simp))
  | last o hne hnl =>
    exact WfLines.last (c :: o) (by simp) (hcs o hnl)
  | closed core ls hnl hwf =>
    exact WfLines.closed (c :: core) ls (hcs core hnl) hwf

theorem wfLines_splitLines (s : List Char) : WfLines (splitLines s) := by
  induction s with
  | nil => exact WfLines.nil
  | cons c rest ih =>
    by_cases h : c = '\n'
    · subst h
      simpa [splitLines] using WfLines.closed [] (splitLines rest) (by simp) ih
    · simpa [splitLines, h] using wfLines_consHead c h (splitLines rest) ih

theorem wfLines_filter (p : List Char → Bool) {ls : List (List Char)}
    (h : WfLines ls) : WfLines (ls.filter p) := by
  induction h with
  | nil => simpa using WfLines.nil
  | last o hne hnl =>
    by_cases hp : p o
    · simpa [List.filter, hp] using WfLines.last o hne hnl
    · simp only [List.filter_cons, List.filter_nil, hp]
      exact WfLines.nil
  | closed core ls hnl hwf ih =>
    by_cases hp : p (core ++ ['\n'])
    · simpa [List.filter, hp] using WfLines.closed core (ls.filter p) hnl ih
    · simpa [List.filter, hp] using ih

/-- Splitting the concatenation of a well-formed line list gives back the
line list itself. -/
theorem splitLines_flatten {ls : List (List Char)} (h : WfLines ls) :
    splitLines ls.flatten = ls := by
  induction h with
  | nil => rfl
  | last o hne hnl => simpa using splitLines_no_newline o hne hnl
  | closed core ls hnl hwf ih =>
    calc splitLines ((core ++ ['\n']) :: ls).flatten
        = splitLines (core ++ '\n' :: ls.flatten) := by simp
      _ = (core ++ ['\n']) :: splitLines ls.flatten :=
          splitLines_newline_terminated core ls.flatten hnl
      _ = (core ++ ['\n']) :: ls := by rw [ih]

theorem mem_of_getLastOpt {α : Type} : ∀ {l : List α} {a : α}, l.getLast? = some a → a ∈ l
  | [], _, h => by simp at h
  | [x], a, h => by
    simp only [List.getLast?_singleton, Option.some_inj] at h
    simp [h]
  | x :: y :: ys, a, h => by
    rw [List.getLast?_cons_cons] at h
    exact List.mem_cons_of_mem _ (mem_of_getLastOpt h)

/-- A well-formed line list whose flattening ends with a newline consists of
closed (newline-terminated) lines only. -/
theorem wfLines_all_closed {ls : List (List Char)} (h : WfLines ls)
    (hend : ls.flatten = [] ∨ ls.flatten.getLast? = some '\n') :
    ∀ l ∈ ls, ∃ core, l = core ++ ['\n'] ∧ '\n' ∉ core := by
  induction h with
  | nil => intro l hl; simp at hl
  | last o hne hnl =>
    exfalso
    rcases hend with hnil | hlast
    · rw [show [o].flatten = o from by simp] at hnil; exact hne hnil
    · rw [show [o].flatten = o from by simp] at hlast
      exact hnl (mem_of_getLastOpt hlast)
  | closed core ls hnl hwf ih =>
    intro l hl
    rcases List.mem_cons.mp hl with hhead | htail
    · exact ⟨core, hhead, hnl⟩
    · refine ih ?_ l htail
      by_cases hfl : ls.flatten = []
      · exact Or.inl hfl
      · right
        rcases hend with hnil | hlast
        · exfalso
          simp only [List.flatten_cons] at hnil
          exact absurd hnil (by simp)
        · simp only [List.flatten_cons] at hlast
          have hstep : ('\n' :: ls.flatten).getLast? = ls.flatten.getLast? := by
            cases hc : ls.flatten with
            | nil => exact absurd hc hfl
            | cons a as => rw [List.getLast?_cons_cons]
          obtain ⟨a, ha⟩ : ∃ a, ls.flatten.getLast? = some a := by
            cases hc : ls.flatten with
            | nil => exact absurd hc hfl
            | cons x xs => exact ⟨(x :: xs).getLast (by simp), List.getLast?_eq_getLast _ _⟩
          rw [show core ++ ['\n'] ++ ls.flatten = core ++ ('\n' :: ls.flatten) from by simp,
            List.getLast?_append, hstep, ha] at hlast
          rw [ha]
          simpa [Option.or] using hlast

/-! ### Hosts blocker (src/prodtracker/blocker/hosts_blocker.py, config.py) -/

/-- Sentinel marker `BLOCK_MARK = "# PGUARD_BLOCK"` from blocker/config.py. -/
def BLOCK_MARK : List Char := "# PGUARD_BLOCK".toList

/-- Default domain list `BLOCK_LIST` from blocker/config.py. -/
def BLOCK_LIST : List (List Char) :=
  ["youtube.com".toList, "tiktok.com".toList, "instagram.com".toList]

/-- Line written by `block_domains` for one domain:
`f"127.0.0.1 \x7bd\x7d \x7bBLOCK_MARK\x7d\n"`. -/
def blockLine (d : List Char) : List Char :=
  "127.0.0.1 ".toList ++ d ++ " ".toList ++ BLOCK_MARK ++ ['\n']

/-- hosts_blocker.py `block_domains`: open the hosts file in append mode and
write one marker-tagged line per domain. -/
def blockDomains (domains : List (List Char)) (content : List Char) : List Char :=
  content ++ (domains.map blockLine).flatten

/-- hosts_blocker.py `unblock_all`: read the file line by line, keep exactly
the lines in which `BLOCK_MARK` does not occur, write them back. -/
def unblockAll (content : List Char) : List Char :=
  ((splitLines content).filter (fun l => !hasSub BLOCK_MARK l)).flatten

theorem splitLines_unblockAll (content : List Char) :
    splitLines (unblockAll content) =
      (splitLines content).filter (fun l => !hasSub BLOCK_MARK l) :=
  splitLines_flatten (wfLines_filter _ (wfLines_splitLines content))

theorem wfLines_of_all_closed :
    ∀ {ls : List (List Char)},
      (∀ l ∈ ls, ∃ core, l = core ++ ['\n'] ∧ '\n' ∉ core) → WfLines ls
  | [], _ => WfLines.nil
  | l :: ls, h => by
    obtain ⟨core, hl, hnl⟩ := h l (by simp)
    rw [hl]
    exact WfLines.closed core ls hnl
      (wfLines_of_all_closed (fun x hx => h x (by simp [hx])))

theorem splitLines_flatten_append :
    ∀ (ls : List (List Char)),
      (∀ l ∈ ls, ∃ core, l = core ++ ['\n'] ∧ '\n' ∉ core) →
      ∀ t, splitLines (ls.flatten ++ t) = ls ++ splitLines t
  | [], _, t => by simp
  | l :: ls, h, t => by
    obtain ⟨core, hl, hnl⟩ := h l (by simp)
    have ih := splitLines_flatten_append ls (fun x hx => h x (by simp [hx])) t
    rw [hl]
    calc splitLines (((core ++ ['\n']) :: ls).flatten ++ t)
        = splitLines (core ++ '\n' :: (ls.flatten ++ t)) := by simp
      _ = (core ++ ['\n']) :: splitLines (ls.flatten ++ t) :=
          splitLines_newline_terminated _ _ hnl
      _ = (core ++ ['\n']) :: (ls ++ splitLines t) := by rw [ih]
      _ = ((core ++ ['\n']) :: ls) ++ splitLines t := rfl

theorem hasSub_blockLine (d : List Char) : hasSub BLOCK_MARK (blockLine d) = true :=
  hasSub_of_append BLOCK_MARK ("127.0.0.1 ".toList ++ d ++ " ".toList) ['\n']

theorem blockLine_closed (d : List Char) (hd : '\n' ∉ d) :
    ∃ core, blockLine d = core ++ ['\n'] ∧ '\n' ∉ core := by
  refine ⟨"127.0.0.1 ".toList ++ d ++ " ".toList ++ BLOCK_MARK, rfl, ?_⟩
  intro hm
  simp only [List.mem_append] at hm
  rcases hm with ((h1 | h2) | h3) | h4
  · revert h1; decide
  · exact hd h2
  · revert h3; decide
  · revert h4; decide

/-- C5 (amended): `unblock_all` removes exactly the lines containing the
sentinel marker and preserves every other line unchanged and in order; and for
every file that ends in a newline (or is empty), none of whose lines contains
the marker, running `block_domains` with newline-free domains followed by
`unblock_all` restores the file to exactly its original content. -/
theorem unblockAll_removes_exactly_marked_lines :
    (∀ content, splitLines (unblockAll content) =
        (splitLines content).filter (fun l => !hasSub BLOCK_MARK l))
    ∧ ∀ content domains,
        content = [] ∨ content.getLast? = some '\n' →
        (∀ l ∈ splitLines content, hasSub BLOCK_MARK l = false) →
        (∀ d ∈ domains, '\n' ∉ d) →
        unblockAll (blockDomains domains content) = content := by
  constructor
  · exact splitLines_unblockAll
  · intro content domains hend hmark hdom
    have hclosed : ∀ l ∈ splitLines content, ∃ core, l = core ++ ['\n'] ∧ '\n' ∉ core := by
      apply wfLines_all_closed (wfLines_splitLines content)
      rw [flatten_splitLines]; exact hend
    have hsplit : splitLines (blockDomains domains content)
        = splitLines content ++ domains.map blockLine := by
      have h1 : splitLines ((splitLines content).flatten ++ (domains.map blockLine).flatten)
          = splitLines content ++ splitLines ((domains.map blockLine).flatten) :=
        splitLines_flatten_append _ hclosed _
      have h2 : splitLines ((domains.map blockLine).flatten) = domains.map blockLine := by
        apply splitLines_flatten
        apply wfLines_of_all_closed
        intro l hl
        obtain ⟨d, hd, rfl⟩ := List.mem_map.mp hl
        exact blockLine_closed d (hdom d hd)
      rw [flatten_splitLines] at h1
      rw [blockDomains, h1, h2]
    rw [unblockAll, hsplit, List.filter_append]
    have hkeep : (splitLines content).filter (fun l => !hasSub BLOCK_MARK l)
        = splitLines content := by
      apply List.filter_eq_self.mpr
      intro l hl
      simp [hmark l hl]
    have hdrop : (domains.map blockLine).filter (fun l => !hasSub BLOCK_MARK l) = [] := by
      apply List.filter_eq_nil_iff.mpr
      intro l hl
      obtain ⟨d, hd, rfl⟩ := List.mem_map.mp hl
      simp [hasSub_blockLine]
    rw [hkeep, hdrop, List.append_nil, flatten_splitLines]

theorem unblockAll_removes_exactly_marked_lines_witness :
    unblockAll (blockDomains [['y']] ['o', 'l', 'd', '\n']) = ['o', 'l', 'd', '\n'] :=
  unblockAll_removes_exactly_marked_lines.2 ['o', 'l', 'd', '\n'] [['y']]
    (Or.inr (by decide)) (by decide) (by decide)

/-- C5 counterexample: a marker-free file whose last line has no trailing
newline is not restored by `block_domains` followed by `unblock_all` — the
first appended tagged entry fuses with the unterminated last line, and the
fused line contains the marker and is removed. -/
theorem unblock_after_block_loses_unterminated_line :
    (∀ l ∈ splitLines ['a'], hasSub BLOCK_MARK l = false)
    ∧ unblockAll (blockDomains ["youtube.com".toList] ['a']) ≠ ['a'] := by
  constructor
  · decide
  · decide

/-! ### Report store and rate limiter (src/prodtracker/api/phone.py) -/

/-- Configuration constant `HEARTBEAT_WINDOW_SECONDS = 60 * 5`. -/
def HEARTBEAT_WINDOW_SECONDS : Int := 60 * 5

/-- Configuration constant `HEARTBEAT_RATE_LIMIT = 60` (max requests). -/
def HEARTBEAT_RATE_LIMIT : Nat := 60

/-- Configuration constant `HEARTBEAT_RATE_WINDOW_SECONDS = 60`. -/
def HEARTBEAT_RATE_WINDOW_SECONDS : Int := 60

/-- One member of the Redis sorted set `hb:device_id`: the JSON object
written by `store_heartbeat_in_redis` (`ts`, `screen_on`, lowercased
`foreground_app`), with the score equal to `ts`. -/
structure HBEntry where
  ts : Int
  screen_on : Bool
  foreground_app : List Char
deriving DecidableEq, Repr

/-- phone.py `store_heartbeat_in_redis` on the per-device sorted set:
`zadd` the entry at score `ts`, then `zremrangebyscore(key, 0, cutoff)` with
`cutoff = now - HEARTBEAT_WINDOW_SECONDS`, which removes exactly the members
whose score lies in the closed interval `[0, cutoff]`. -/
def storeHeartbeat (now : Int) (entries : List HBEntry) (e : HBEntry) : List HBEntry :=
  (entries ++ [e]).filter
    (fun x => !(decide (0 ≤ x.ts) && decide (x.ts ≤ now - HEARTBEAT_WINDOW_SECONDS)))

/-- phone.py `load_recent_heartbeats`: `zrangebyscore(key, cutoff, "+inf")`
with `cutoff = now - HEARTBEAT_WINDOW_SECONDS` — members with score ≥ cutoff. -/
def loadRecentHeartbeats (now : Int) (entries : List HBEntry) : List HBEntry :=
  entries.filter (fun x => decide (now - HEARTBEAT_WINDOW_SECONDS ≤ x.ts))

/-- C3 (amended): a Report Store read at time `T` returns no entry with
timestamp below `T` minus the retention window — for any stored state, hence
for every sequence of appends interleaved with reads; and every append prunes
exactly the stored entries whose timestamp lies in `[0, now - window]`: all
entries with nonnegative timestamps older than the window are removed, and
every other entry of the appended state is kept. -/
theorem report_store_retention_window :
    (∀ now entries e, e ∈ loadRecentHeartbeats now entries →
        now - HEARTBEAT_WINDOW_SECONDS ≤ e.ts)
    ∧ (∀ now entries e x, x ∈ storeHeartbeat now entries e →
        ¬(0 ≤ x.ts ∧ x.ts ≤ now - HEARTBEAT_WINDOW_SECONDS))
    ∧ (∀ now entries e x, x ∈ entries ++ [e] →
        ¬(0 ≤ x.ts ∧ x.ts ≤ now - HEARTBEAT_WINDOW_SECONDS) →
        x ∈ storeHeartbeat now entries e) := by
  refine ⟨?_, ?_, ?_⟩
  · intro now entries e he
    have := (List.mem_filter.mp he).2
    simpa using this
  · intro now entries e x hx
    have := (List.mem_filter.mp hx).2
    intro hcontra
    simp only [Bool.not_eq_true', Bool.and_eq_false_iff, decide_eq_false_iff_not] at this
    rcases this with h | h
    · exact h hcontra.1
    · exact h hcontra.2
  · intro now entries e x hx hkeep
    apply List.mem_filter.mpr
    refine ⟨hx, ?_⟩
    simp only [Bool.not_eq_true', Bool.and_eq_false_iff, decide_eq_false_iff_not]
    by_cases h0 : 0 ≤ x.ts
    · exact Or.inr (fun hc => hkeep ⟨h0, hc⟩)
    · exact Or.inl h0

theorem report_store_retention_window_witness :
    (⟨400, true, []⟩ : HBEntry) ∈ loadRecentHeartbeats 400 [⟨400, true, []⟩]
    ∧ (400 : Int) - HEARTBEAT_WINDOW_SECONDS ≤ (400 : Int) :=
  ⟨by decide, report_store_retention_window.1 400 [⟨400, true, []⟩] ⟨400, true, []⟩ (by decide)⟩

/-- C3 counterexample: an append at time 400 does not prune a stored entry
with (producer-supplied) negative timestamp `-1`, although that timestamp is
older than `now` minus the retention window — `zremrangebyscore(key, 0, cutoff)`
only removes scores from 0 upward. -/
theorem report_store_append_misses_negative_timestamp :
    storeHeartbeat 400 [⟨-1, true, []⟩] ⟨400, true, []⟩
        = [⟨-1, true, []⟩, ⟨400, true, []⟩]
    ∧ (-1 : Int) < 400 - HEARTBEAT_WINDOW_SECONDS := by
  constructor
  · decide
  · decide

/-- phone.py `enforce_heartbeat_rate_limit`, acting on the Redis value and
expiry of key `rl:hb:device_id`: `INCR` creates the key at 1 and arms its
expiry (`EXPIRE window`), otherwise increments; the request is rejected (429)
when the incremented count exceeds `HEARTBEAT_RATE_LIMIT`. The state is
`some (count, expiresAt)` or `none`; an expired key (`expiresAt ≤ now`) is
absent. Returns the new key state and whether the request is accepted. -/
def rlRequest (now : Int) (st : Option (Nat × Int)) : (Nat × Int) × Bool :=
  match st with
  | some (c, e) =>
    if now < e then ((c + 1, e), decide (c + 1 ≤ HEARTBEAT_RATE_LIMIT))
    else ((1, now + HEARTBEAT_RATE_WINDOW_SECONDS), true)
  | none => ((1, now + HEARTBEAT_RATE_WINDOW_SECONDS), true)

/-- Run a sequence of rate-limited requests (given by their times) against a
rate-limiter key state; returns the final state and the acceptance of each
request in order. -/
def rlRun : Option (Nat × Int) → List Int → Option (Nat × Int) × List Bool
  | st, [] => (st, [])
  | st, t :: ts =>
    let r := rlRequest t st
    let rest := rlRun (some r.1) ts
    (rest.1, r.2 :: rest.2)

theorem rlRun_within (c : Nat) (e : Int) :
    ∀ ts : List Int, (∀ t ∈ ts, t < e) →
      (rlRun (some (c, e)) ts).2
        = (List.range ts.length).map (fun i => decide (c + 1 + i ≤ HEARTBEAT_RATE_LIMIT)) := by
  intro ts
  induction ts generalizing c with
  | nil => intro _; rfl
  | cons t ts ih =>
    intro h
    have ht : t < e := h t (by simp)
    have hts : ∀ t' ∈ ts, t' < e := fun t' ht' => h t' (by simp [ht'])
    simp only [rlRun, rlRequest, ht, if_pos]
    rw [ih (c + 1) hts]
    rw [List.length_cons, List.range_succ_eq_map]
    simp only [List.map_cons, List.map_map]
    refine congrArg₂ List.cons ?_ ?_
    · norm_num
    · apply List.map_congr_left
      intro i _
      simp only [Function.comp_apply, Nat.succ_eq_add_one, decide_eq_decide]
      omega

/-- C4: per device, heartbeats are counted in a fixed window whose expiry is
armed by the first request of the window (length 60 s, cap 60): starting from
an absent key, for any run of requests all earlier than `t0 + 60`, request
`i + 1` is accepted exactly when `i + 1 ≤ 60` — every request beyond the cap
is rejected for the remainder of the window; and a request at or after the
key's expiry restarts the counter at 1 and is accepted. -/
theorem heartbeat_rate_limit_fixed_window :
    (∀ (t0 : Int) (ts : List Int),
        (∀ t ∈ ts, t < t0 + HEARTBEAT_RATE_WINDOW_SECONDS) →
        (rlRun none (t0 :: ts)).2
          = (List.range (ts.length + 1)).map
              (fun i => decide (i + 1 ≤ HEARTBEAT_RATE_LIMIT)))
    ∧ (∀ (c : Nat) (e t : Int), e ≤ t →
        rlRequest t (some (c, e)) = ((1, t + HEARTBEAT_RATE_WINDOW_SECONDS), true)) := by
  constructor
  · intro t0 ts h
    simp only [rlRun, rlRequest]
    rw [rlRun_within 1 (t0 + HEARTBEAT_RATE_WINDOW_SECONDS) ts h]
    rw [List.range_succ_eq_map]
    simp only [List.map_cons, List.map_map]
    refine congrArg₂ List.cons ?_ ?_
    · decide
    · apply List.map_congr_left
      intro i _
      simp only [Function.comp_apply, Nat.succ_eq_add_one, decide_eq_decide]
      omega
  · intro c e t h
    simp only [rlRequest, if_neg (by omega : ¬ t < e)]

theorem heartbeat_rate_limit_fixed_window_witness :
    (rlRun none [0, 1, 2]).2
      = (List.range 3).map (fun i => decide (i + 1 ≤ HEARTBEAT_RATE_LIMIT)) :=
  heartbeat_rate_limit_fixed_window.1 0 [1, 2] (by decide)

/-! ### Canonical signed payload (phone.py `heartbeat`, steps 3–4)

`json.dumps(unsigned_payload, separators=(",", ":"), sort_keys=True)` over the
dict `(device_id, timestamp, screen_on, foreground_app)`: keys emitted in
sorted order (`device_id`, `foreground_app`, `screen_on`, `timestamp`), no
whitespace, `signature` excluded, strings escaped as by `json`'s
`ensure_ascii` encoder. -/

/-- Lower-case hex digit for a nibble. -/
def hexDigit (n : Nat) : Char :=
  if n < 10 then Char.ofNat (48 + n) else Char.ofNat (87 + n)

/-- Four-hex-digit `\uXXXX` escape used by the json encoder. -/
def uEscape (n : Nat) : String :=
  "\\u" ++ String.mk [hexDigit (n / 4096 % 16), hexDigit (n / 256 % 16),
    hexDigit (n / 16 % 16), hexDigit (n % 16)]

/-- Escape of a single character as in Python's
`json.encoder.py_encode_basestring_ascii`: shortcuts for the two-character
escapes, `\uXXXX` for other controls and all non-ASCII, surrogate pairs above
the BMP, everything else verbatim. -/
def jsonEscapeChar (c : Char) : String :=
  if c = '"' then "\\\""
  else if c = '\\' then "\\\\"
  else if c = '\n' then "\\n"
  else if c = '\r' then "\\r"
  else if c = '\t' then "\\t"
  else if c = Char.ofNat 8 then "\\b"
  else if c = Char.ofNat 12 then "\\f"
  else if c.toNat < 32 then uEscape c.toNat
  else if c.toNat < 127 then String.mk [c]
  else if c.toNat < 65536 then uEscape c.toNat
  else uEscape (55296 + (c.toNat - 65536) / 1024) ++ uEscape (56320 + (c.toNat - 65536) % 1024)

/-- JSON string literal for `s`. -/
def jsonString (s : String) : String :=
  "\"" ++ String.join (s.toList.map jsonEscapeChar) ++ "\""

/-- JSON rendering of an optional string: `null` for Python's `None`. -/
def jsonOptString : Option String → String
  | none => "null"
  | some s => jsonString s

/-- JSON rendering of a bool. -/
def jsonBool (b : Bool) : String := if b then "true" else "false"

/-- The heartbeat request body (phone.py `Heartbeat` pydantic model). The
`datetime` field is carried in its two renderings used by the code:
`timestampIso` is `timestamp.isoformat()` (signed), `ts` is
`timestamp.timestamp()` in whole seconds (stored as the Redis score). -/
structure Heartbeat where
  device_id : String
  timestampIso : String
  ts : Int
  screen_on : Bool
  foreground_app : Option String
  signature : Option String
deriving DecidableEq, Repr

/-- The canonical signed payload of phone.py `heartbeat`:
`json.dumps(\x7b"device_id": ..., "timestamp": ..., "screen_on": ...,
"foreground_app": ...\x7d, separators=(",", ":"), sort_keys=True)` — keys in
sorted order, no extraneous whitespace, `signature` excluded. -/
def canonicalPayload (hb : Heartbeat) : String :=
  "\x7b\"device_id\":" ++ jsonString hb.device_id
    ++ ",\"foreground_app\":" ++ jsonOptString hb.foreground_app
    ++ ",\"screen_on\":" ++ jsonBool hb.screen_on
    ++ ",\"timestamp\":" ++ jsonString hb.timestampIso ++ "\x7d"

/-! ### Heartbeat endpoint pipeline (phone.py `heartbeat`) -/

/-- A row of the `devices` table (db/models.py `Device`); the nullable
`secret` column's falsy values (`None`, `""`) are modelled by `""`. -/
structure DeviceRec where
  device_id : String
  name : String
  paired : Bool
  secret : String
  last_seen : Int
deriving DecidableEq, Repr

/-- Association-list lookup (first binding wins, like a keyed store). -/
def alookup {α β : Type} [DecidableEq α] (k : α) : List (α × β) → Option β
  | [] => none
  | (k', v) :: rest => if k = k' then some v else alookup k rest

/-- Association-list update/insert of a binding. -/
def aupdate {α β : Type} [DecidableEq α] (k : α) (v : β) : List (α × β) → List (α × β)
  | [] => [(k, v)]
  | (k', v') :: rest => if k = k' then (k, v) :: rest else (k', v') :: aupdate k v rest

theorem alookup_aupdate_self {α β : Type} [DecidableEq α] (k : α) (v : β) :
    ∀ l : List (α × β), alookup k (aupdate k v l) = some v := by
  intro l
  induction l with
  | nil => simp [alookup, aupdate]
  | cons p rest ih =>
    by_cases h : k = p.1
    · simp [alookup, aupdate, h]
    · simp [alookup, aupdate, h, ih]

/-- Lookup `db.query(Device).filter(Device.device_id == id).first()`. -/
def findDevice (id : String) : List DeviceRec → Option DeviceRec
  | [] => none
  | d :: rest => if d.device_id = id then some d else findDevice id rest

/-- Server-side stored data touched by the heartbeat endpoint: the `devices`
table, the per-device rate-limit keys `rl:hb:*`, and the per-device report
store keys `hb:*`. -/
structure ServerState where
  devices : List DeviceRec
  rl : List (String × (Nat × Int))
  reports : List (String × List HBEntry)
deriving DecidableEq, Repr

/-- Pipeline phases of one heartbeat request, in execution order. -/
inductive Phase
  | rateLimit
  | auth
  | mutate
deriving DecidableEq, Repr

/-- ASCII lowercasing of Python's `.lower()` on the stored app label. -/
def lowerStr (s : String) : String := String.mk (s.toList.map Char.toLower)

/-- The report-store entry built by `store_heartbeat_in_redis`. -/
def mkEntry (hb : Heartbeat) : HBEntry :=
  ⟨hb.ts, hb.screen_on, (lowerStr (hb.foreground_app.getD "")).toList⟩

/-- phone.py `heartbeat`, one request against the server state: rate limit
first (`429`), then device lookup and pairing check (`403`), missing secret
(`500`), missing/empty signature (`403`), HMAC comparison (`403`/accept);
on acceptance `last_seen` is committed and the report store appended
(best-effort: `storeFails` models a swallowed Redis error). Returns the new
state, the HTTP status (`200` means body `{ok:true}`), and the trace of
pipeline phases reached. -/
def heartbeatStep (mac : String → String → String) (now : Int) (storeFails : Bool)
    (st : ServerState) (hb : Heartbeat) : ServerState × Nat × List Phase :=
  let r := rlRequest now (alookup hb.device_id st.rl)
  let rl1 := aupdate hb.device_id r.1 st.rl
  if r.2 = false then ({ st with rl := rl1 }, 429, [Phase.rateLimit])
  else
    match findDevice hb.device_id st.devices with
    | none => ({ st with rl := rl1 }, 403, [Phase.rateLimit, Phase.auth])
    | some d =>
      if d.paired = false then ({ st with rl := rl1 }, 403, [Phase.rateLimit, Phase.auth])
      else if d.secret = "" then ({ st with rl := rl1 }, 500, [Phase.rateLimit, Phase.auth])
      else
        match hb.signature with
        | none => ({ st with rl := rl1 }, 403, [Phase.rateLimit, Phase.auth])
        | some sig =>
          if sig = "" then ({ st with rl := rl1 }, 403, [Phase.rateLimit, Phase.auth])
          else if sig = mac d.secret (canonicalPayload hb) then
            ({ devices := st.devices.map
                  (fun x => if x.device_id = hb.device_id then { x with last_seen := now } else x),
               rl := rl1,
               reports :=
                 if storeFails then st.reports
                 else aupdate hb.device_id
                   (storeHeartbeat now ((alookup hb.device_id st.reports).getD []) (mkEntry hb))
                   st.reports },
             200, [Phase.rateLimit, Phase.auth, Phase.mutate])
          else ({ st with rl := rl1 }, 403, [Phase.rateLimit, Phase.auth])

/-- C1: for a heartbeat request that is not rate-limited, against a device
table whose matching row has a nonempty secret (the invariant established by
pairing, which always issues `secrets.token_hex(32)`) and an HMAC whose hex
digests are never the empty string, the endpoint answers 200 `{ok:true}` iff
the device exists with `paired=true` and the request carries a signature equal
to the HMAC-SHA256, under the device's current secret, of the canonical JSON
serialization of the unsigned fields; every failing case — unknown device,
unpaired device, missing signature, invalid signature — is answered 403. -/
theorem heartbeat_200_iff_authentic (mac : String → String → String)
    (hmac_ne : ∀ k m, mac k m ≠ "")
    (now : Int) (storeFails : Bool) (st : ServerState) (hb : Heartbeat)
    (hrl : (rlRequest now (alookup hb.device_id st.rl)).2 = true)
    (hsec : ∀ d, findDevice hb.device_id st.devices = some d → d.secret ≠ "") :
    ((heartbeatStep mac now storeFails st hb).2.1 = 200 ↔
      ∃ d, findDevice hb.device_id st.devices = some d ∧ d.paired = true
        ∧ hb.signature = some (mac d.secret (canonicalPayload hb)))
    ∧ ((heartbeatStep mac now storeFails st hb).2.1 ≠ 200 →
        (heartbeatStep mac now storeFails st hb).2.1 = 403) := by
  cases hfd : findDevice hb.device_id st.devices with
  | none =>
    have hstat : (heartbeatStep mac now storeFails st hb).2.1 = 403 := by
      simp [heartbeatStep, hrl, hfd]
    rw [hstat]
    refine ⟨⟨fun h => absurd h (by norm_num), ?_⟩, fun _ => rfl⟩
    rintro ⟨d, hd, -, -⟩
    exact absurd hd (by simp)
  | some d =>
    cases hpv : d.paired with
    | false =>
      have hstat : (heartbeatStep mac now storeFails st hb).2.1 = 403 := by
        simp [heartbeatStep, hrl, hfd, hpv]
      rw [hstat]
      refine ⟨⟨fun h => absurd h (by norm_num), ?_⟩, fun _ => rfl⟩
      rintro ⟨d', hd', hpair, -⟩
      have hd2 : d = d' := Option.some_inj.mp hd'
      subst hd2
      rw [hpv] at hpair
      exact absurd hpair (by simp)
    | true =>
      have hs : ¬ d.secret = "" := hsec d hfd
      cases hsig : hb.signature with
      | none =>
        have hstat : (heartbeatStep mac now storeFails st hb).2.1 = 403 := by
          simp [heartbeatStep, hrl, hfd, hpv, hs, hsig]
        rw [hstat]
        refine ⟨⟨fun h => absurd h (by norm_num), ?_⟩, fun _ => rfl⟩
        rintro ⟨d', -, -, hsign⟩
        exact absurd hsign (by simp)
      | some sig =>
        by_cases hse : sig = ""
        · subst hse
          have hstat : (heartbeatStep mac now storeFails st hb).2.1 = 403 := by
            simp [heartbeatStep, hrl, hfd, hpv, hs, hsig]
          rw [hstat]
          refine ⟨⟨fun h => absurd h (by norm_num), ?_⟩, fun _ => rfl⟩
          rintro ⟨d', hd', -, hsign⟩
          have hd2 : d = d' := Option.some_inj.mp hd'
          subst hd2
          exact (hmac_ne _ _ (Option.some_inj.mp hsign).symm).elim
        · by_cases hm : sig = mac d.secret (canonicalPayload hb)
          · have hstat : (heartbeatStep mac now storeFails st hb).2.1 = 200 := by
              simp [heartbeatStep, hrl, hfd, hpv, hs, hsig, hm,
                hmac_ne d.secret (canonicalPayload hb)]
            rw [hstat]
            refine ⟨⟨fun _ => ⟨d, rfl, hpv, ?_⟩, fun _ => rfl⟩, fun h => absurd rfl h⟩
            rw [hm]
          · have hstat : (heartbeatStep mac now storeFails st hb).2.1 = 403 := by
              simp [heartbeatStep, hrl, hfd, hpv, hs, hsig, hse, hm]
            rw [hstat]
            refine ⟨⟨fun h => absurd h (by norm_num), ?_⟩, fun _ => rfl⟩
            rintro ⟨d', hd', -, hsign⟩
            have hd2 : d = d' := Option.some_inj.mp hd'
            subst hd2
            exact (hm (Option.some_inj.mp hsign)).elim

theorem heartbeat_200_iff_authentic_witness :
    (heartbeatStep (fun _ _ => "aa") 5 false
        ⟨[⟨"d1", "phone", true, "k", 0⟩], [], []⟩
        ⟨"d1", "2024-01-01T00:00:00", 0, true, none, some "aa"⟩).2.1 = 200 := by
  have h := heartbeat_200_iff_authentic (fun _ _ => "aa")
      (fun _ _ => show ("aa" : String) ≠ "" by decide) 5 false
      ⟨[⟨"d1", "phone", true, "k", 0⟩], [], []⟩
      ⟨"d1", "2024-01-01T00:00:00", 0, true, none, some "aa"⟩
      (by decide)
      (by
        intro d hd
        have h2 : some (⟨"d1", "phone", true, "k", 0⟩ : DeviceRec) = some d := hd
        rw [← Option.some_inj.mp h2]
        decide)
  exact h.1.mpr ⟨⟨"d1", "phone", true, "k", 0⟩, by decide, rfl, rfl⟩

/-- C8 (amended): for every heartbeat request, rate limiting runs before
authentication is attempted — the phase trace starts with the rate-limit
phase, a 429 response never reaches the authentication phase, and every other
response reaches it right after rate limiting — and successful authentication
is required before any mutation of the device table or the report store: every
non-200 response leaves both unchanged. The per-device rate-limit counter
itself, however, is updated by every request, including ones that fail
authentication. -/
theorem rate_limit_first_auth_gates_mutation
    (mac : String → String → String) (now : Int) (storeFails : Bool)
    (st : ServerState) (hb : Heartbeat) :
    ((heartbeatStep mac now storeFails st hb).2.1 ≠ 200 →
      (heartbeatStep mac now storeFails st hb).1.devices = st.devices
      ∧ (heartbeatStep mac now storeFails st hb).1.reports = st.reports)
    ∧ ((heartbeatStep mac now storeFails st hb).2.2).head? = some Phase.rateLimit
    ∧ ((heartbeatStep mac now storeFails st hb).2.1 = 429 →
      (heartbeatStep mac now storeFails st hb).2.2 = [Phase.rateLimit])
    ∧ ((heartbeatStep mac now storeFails st hb).2.1 ≠ 429 →
      ((heartbeatStep mac now storeFails st hb).2.2).take 2
        = [Phase.rateLimit, Phase.auth]) := by
  set rl1 := aupdate hb.device_id (rlRequest now (alookup hb.device_id st.rl)).1 st.rl with hrl1
  by_cases hrl : (rlRequest now (alookup hb.device_id st.rl)).2 = true
  · cases hfd : findDevice hb.device_id st.devices with
    | none =>
      have he : heartbeatStep mac now storeFails st hb
          = ({ st with rl := rl1 }, 403, [Phase.rateLimit, Phase.auth]) := by
        simp [heartbeatStep, hrl, hfd, hrl1]
      rw [he]
      exact ⟨fun _ => ⟨rfl, rfl⟩, rfl, fun h => absurd h (by norm_num), fun _ => rfl⟩
    | some d =>
      cases hpv : d.paired with
      | false =>
        have he : heartbeatStep mac now storeFails st hb
            = ({ st with rl := rl1 }, 403, [Phase.rateLimit, Phase.auth]) := by
          simp [heartbeatStep, hrl, hfd, hpv, hrl1]
        rw [he]
        exact ⟨fun _ => ⟨rfl, rfl⟩, rfl, fun h => absurd h (by norm_num), fun _ => rfl⟩
      | true =>
        by_cases hs : d.secret = ""
        · have he : heartbeatStep mac now storeFails st hb
              = ({ st with rl := rl1 }, 500, [Phase.rateLimit, Phase.auth]) := by
            simp [heartbeatStep, hrl, hfd, hpv, hs, hrl1]
          rw [he]
          exact ⟨fun _ => ⟨rfl, rfl⟩, rfl, fun h => absurd h (by norm_num), fun _ => rfl⟩
        · cases hsig : hb.signature with
          | none =>
            have he : heartbeatStep mac now storeFails st hb
                = ({ st with rl := rl1 }, 403, [Phase.rateLimit, Phase.auth]) := by
              simp [heartbeatStep, hrl, hfd, hpv, hs, hsig, hrl1]
            rw [he]
            exact ⟨fun _ => ⟨rfl, rfl⟩, rfl, fun h => absurd h (by norm_num), fun _ => rfl⟩
          | some sig =>
            by_cases hse : sig = ""
            · subst hse
              have he : heartbeatStep mac now storeFails st hb
                  = ({ st with rl := rl1 }, 403, [Phase.rateLimit, Phase.auth]) := by
                simp [heartbeatStep, hrl, hfd, hpv, hs, hsig, hrl1]
              rw [he]
              exact ⟨fun _ => ⟨rfl, rfl⟩, rfl, fun h => absurd h (by norm_num), fun _ => rfl⟩
            · by_cases hm : sig = mac d.secret (canonicalPayload hb)
              · have h200 : (heartbeatStep mac now storeFails st hb).2.1 = 200
                    ∧ (heartbeatStep mac now storeFails st hb).2.2
                      = [Phase.rateLimit, Phase.auth, Phase.mutate] := by
                  constructor <;>
                    simp [heartbeatStep, hrl, hfd, hpv, hs, hsig, hse, hm.symm]
                refine ⟨fun h => absurd h200.1 h, ?_, fun h => ?_, fun _ => ?_⟩
                · rw [h200.2]; rfl
                · rw [h200.1] at h; exact absurd h (by norm_num)
                · rw [h200.2]; rfl
              · have he : heartbeatStep mac now storeFails st hb
                    = ({ st with rl := rl1 }, 403, [Phase.rateLimit, Phase.auth]) := by
                  simp [heartbeatStep, hrl, hfd, hpv, hs, hsig, hse, hm, hrl1]
                rw [he]
                exact ⟨fun _ => ⟨rfl, rfl⟩, rfl, fun h => absurd h (by norm_num), fun _ => rfl⟩
  · have hrl2 : (rlRequest now (alookup hb.device_id st.rl)).2 = false := by
      cases hv : (rlRequest now (alookup hb.device_id st.rl)).2
      · rfl
      · exact absurd hv hrl
    have he : heartbeatStep mac now storeFails st hb
        = ({ st with rl := rl1 }, 429, [Phase.rateLimit]) := by
      simp [heartbeatStep, hrl2, hrl1]
    rw [he]
    exact ⟨fun _ => ⟨rfl, rfl⟩, rfl, fun _ => rfl, fun h => absurd rfl h⟩

theorem rate_limit_first_auth_gates_mutation_witness :
    (heartbeatStep (fun _ _ => "bb") 0 false ⟨[], [], []⟩
        ⟨"d2", "t", 0, false, none, none⟩).1.devices = []
    ∧ (heartbeatStep (fun _ _ => "bb") 0 false ⟨[], [], []⟩
        ⟨"d2", "t", 0, false, none, none⟩).1.reports = [] :=
  (rate_limit_first_auth_gates_mutation (fun _ _ => "bb") 0 false ⟨[], [], []⟩
    ⟨"d2", "t", 0, false, none, none⟩).1 (by decide)

/-- C8 counterexample: a heartbeat from an unknown device fails
authentication with 403, yet the server state is not left unchanged — the
Redis rate-limit counter for the device (a stored datum) has been created
and incremented before authentication ran. -/
theorem failed_auth_still_mutates_rate_counter :
    (heartbeatStep (fun _ _ => "aa") 0 false ⟨[], [], []⟩
        ⟨"d1", "t", 0, true, none, none⟩).2.1 = 403
    ∧ (heartbeatStep (fun _ _ => "aa") 0 false ⟨[], [], []⟩
        ⟨"d1", "t", 0, true, none, none⟩).1 ≠ (⟨[], [], []⟩ : ServerState) := by
  constructor
  · decide
  · decide

/-! ### Policy correlator (phone.py `evaluate_device_state`, counting part) -/

/-- phone.py `DISTRACTING_KEYWORDS` (verbatim, duplicate included). -/
def DISTRACTING_KEYWORDS : List (List Char) :=
  ["youtube".toList, "tiktok".toList, "shorts".toList, "instagram".toList,
   "reddit".toList, "facebook".toList, "netflix".toList, "hulu".toList,
   "disneyplus".toList, "twitter".toList, "x".toList, "linkedin".toList,
   "discord".toList, "instagram".toList]

/-- phone.py `DISTRACTION_THRESHOLD = 3`. -/
def DISTRACTION_THRESHOLD : Nat := 3

/-- Python `any(kw in fa for kw in DISTRACTING_KEYWORDS)`. -/
def isDistracting (fa : List Char) : Bool :=
  DISTRACTING_KEYWORDS.any (fun kw => hasSub kw fa)

/-- Count `distract_count`: retained reports whose foreground-app field contains a
distraction keyword. -/
def distractCount (entries : List HBEntry) : Nat :=
  entries.countP (fun e => isDistracting e.foreground_app)

/-- Count `screen_on_count`: retained reports with the screen on. -/
def screenOnCount (entries : List HBEntry) : Nat :=
  entries.countP (fun e => e.screen_on)

/-- Count `pc_prod_count`: productive flags among the sampled recent PC events. -/
def pcProdCount (recentPc : List Bool) : Nat :=
  recentPc.countP (fun b => b)

/-- Denominator `pc_total = max(1, len(recent_pc))` — the denominator floored at 1. -/
def pcTotal (recentPc : List Bool) : Nat :=
  max 1 recentPc.length

/-- Quotient `pc_prod_count / pc_total` (the code's float division, here exact). -/
def pcProdFrac (recentPc : List Bool) : ℚ :=
  (pcProdCount recentPc : ℚ) / (pcTotal recentPc : ℚ)

/-- Predicate `pc_is_productive = (pc_prod_count / pc_total) >= 0.7`. -/
def pcIsProductive (recentPc : List Bool) : Bool :=
  decide (pcProdFrac recentPc ≥ 7 / 10)

/-- The trigger condition of `evaluate_device_state`:
`pc_is_productive and distract_count >= DISTRACTION_THRESHOLD and
screen_on_count >= 2`. -/
def evaluateTrigger (entries : List HBEntry) (recentPc : List Bool) : Bool :=
  pcIsProductive recentPc
    && decide (distractCount entries ≥ DISTRACTION_THRESHOLD)
    && decide (screenOnCount entries ≥ 2)

theorem pcRatio_ge_iff (recentPc : List Bool) :
    (7 / 10 ≤ pcProdFrac recentPc)
      ↔ 7 * pcTotal recentPc ≤ 10 * pcProdCount recentPc := by
  have h1 : 1 ≤ pcTotal recentPc := le_max_left 1 _
  have hpos : (0 : ℚ) < (pcTotal recentPc : ℚ) := by
    exact_mod_cast Nat.lt_of_lt_of_le Nat.zero_lt_one h1
  rw [pcProdFrac, div_le_div_iff₀ (by norm_num) hpos]
  constructor
  · intro h
    have h2 : ((7 * pcTotal recentPc : Nat) : ℚ) ≤ ((10 * pcProdCount recentPc : Nat) : ℚ) := by
      push_cast
      linarith
    exact_mod_cast h2
  · intro h
    have h2 : ((7 * pcTotal recentPc : Nat) : ℚ) ≤ ((10 * pcProdCount recentPc : Nat) : ℚ) := by
      exact_mod_cast h
    push_cast at h2
    linarith

/-- Decidable (pure `Nat`) characterization of the trigger, used to discharge
trigger hypotheses on concrete inputs. -/
theorem evaluateTrigger_eq_true_iff (entries : List HBEntry) (recentPc : List Bool) :
    evaluateTrigger entries recentPc = true
      ↔ (7 * pcTotal recentPc ≤ 10 * pcProdCount recentPc
        ∧ DISTRACTION_THRESHOLD ≤ distractCount entries
        ∧ 2 ≤ screenOnCount entries) := by
  rw [evaluateTrigger, Bool.and_eq_true, Bool.and_eq_true]
  rw [pcIsProductive]
  simp only [decide_eq_true_eq, ge_iff_le]
  rw [pcRatio_ge_iff]
  tauto

/-- C2: the policy evaluation triggers iff
`pc_productivity_ratio >= 0.7` and `distract_count >= 3` and
`screen_on_count >= 2`; the ratio's denominator is floored at 1 (positive
even with zero recent PC events), with zero recent PC events it never
triggers, and the trigger is monotone: whenever any one of the three
counters is below its threshold it does not trigger. -/
theorem policy_trigger_iff_thresholds (entries : List HBEntry) (recentPc : List Bool) :
    (evaluateTrigger entries recentPc = true ↔
      (pcProdFrac recentPc ≥ 7 / 10
        ∧ distractCount entries ≥ DISTRACTION_THRESHOLD
        ∧ screenOnCount entries ≥ 2))
    ∧ 0 < pcTotal recentPc
    ∧ (recentPc = [] → evaluateTrigger entries recentPc = false)
    ∧ ((pcProdFrac recentPc < 7 / 10
        ∨ distractCount entries < DISTRACTION_THRESHOLD
        ∨ screenOnCount entries < 2) → evaluateTrigger entries recentPc = false) := by
  have hiff : evaluateTrigger entries recentPc = true ↔
      (pcProdFrac recentPc ≥ 7 / 10
        ∧ distractCount entries ≥ DISTRACTION_THRESHOLD
        ∧ screenOnCount entries ≥ 2) := by
    rw [evaluateTrigger_eq_true_iff]
    simp only [ge_iff_le]
    rw [← pcRatio_ge_iff]
  refine ⟨hiff, Nat.lt_of_lt_of_le Nat.zero_lt_one (le_max_left 1 _), ?_, ?_⟩
  · intro h0
    subst h0
    cases hv : evaluateTrigger entries []
    · rfl
    · exfalso
      have hratio : pcProdFrac ([] : List Bool) = 0 := by
        simp [pcProdFrac, pcProdCount]
      have := (hiff.mp hv).1
      rw [hratio] at this
      norm_num at this
  · intro hlt
    cases hv : evaluateTrigger entries recentPc
    · rfl
    · exfalso
      obtain ⟨h1, h2, h3⟩ := hiff.mp hv
      rcases hlt with h | h | h
      · exact absurd h1 (not_le.mpr h)
      · exact absurd h2 (by omega)
      · exact absurd h3 (by omega)

theorem policy_trigger_iff_thresholds_witness :
    evaluateTrigger
        [⟨0, true, "youtube".toList⟩, ⟨1, true, "youtube".toList⟩,
         ⟨2, true, "youtube".toList⟩] [true] = true :=
  (policy_trigger_iff_thresholds
      [⟨0, true, "youtube".toList⟩, ⟨1, true, "youtube".toList⟩,
       ⟨2, true, "youtube".toList⟩] [true]).1.mpr
    ⟨by rw [ge_iff_le, pcRatio_ge_iff]; decide, by decide, by decide⟩

/-! ### Enforcement engine (phone.py `evaluate_device_state` trigger branch,
`scheduled_unblock`) -/

/-- phone.py `BLOCK_DOMAINS_DEFAULT` (verbatim). -/
def BLOCK_DOMAINS_DEFAULT : List String :=
  ["youtube.com", "m.youtube.com", "tiktok.com", "www.reddit.com", "x.com",
   "twitter.com", "www.instagram.com", "instagram.com", "facebook.com",
   "www.facebook.com", "m.facebook.com", "www.linkedin.com", "linkedin.com",
   "netflix.com", "www.netflix.com", "www.hulu.com", "hulu.com",
   "www.disneyplus.com", "disneyplus.com"]

/-- Microseconds in one day; naive `datetime` values are modelled as
microseconds since the epoch. -/
def MICROS_PER_DAY : Int := 86400000000

/-- Model of `datetime.combine(datetime.utcnow().date(), datetime.max.time())`:
the UTC day of `nowUtc` combined with 23:59:59.999999. -/
def endOfUtcDay (nowUtc : Int) : Int :=
  nowUtc / MICROS_PER_DAY * MICROS_PER_DAY + 86399999999

/-- A row of `block_records` (db/models.py `BlockRecord`); `domains` is stored
as a JSON-encoded list, modelled by the list itself. -/
structure BlockRec where
  created_at : Int
  expires_at : Int
  domains : List String
  active : Bool
  reason : String
deriving DecidableEq, Repr

/-- The BlockRecord built by the trigger branch of `evaluate_device_state`:
`active=True`, `expires_at = combine(utcnow().date(), datetime.max.time())`,
`domains = BLOCK_DOMAINS_DEFAULT`, `reason = f"mobile-distract:\x7bdevice_id\x7d"`. -/
def mkBlockRecord (nowUtc : Int) (device_id : String) : BlockRec :=
  { created_at := nowUtc
    expires_at := endOfUtcDay nowUtc
    domains := BLOCK_DOMAINS_DEFAULT
    active := true
    reason := "mobile-distract:" ++ device_id }

/-- State touched by the enforcement engine: the `block_records` table
(keyed by autoincrement id) and the hosts file. -/
structure EnfState where
  blockRecords : List (Nat × BlockRec)
  hosts : List Char
deriving DecidableEq, Repr

/-- Next autoincrement id for the `block_records` table. -/
def freshId (records : List (Nat × BlockRec)) : Nat :=
  records.foldl (fun m p => max m (p.1 + 1)) 0

/-- Side-effecting actions of the trigger branch, in execution order. -/
inductive EnfAct
  | persistRecord
  | applyBlockAttempt
  | scheduleUnblock
  | alertUser
deriving DecidableEq, Repr

/-- phone.py `evaluate_device_state`: load the retained reports, count
distraction and screen-on, sample recent PC events (passed in as their
`productive` flags), and on trigger persist a `BlockRecord` with
`active=True` (db.add/commit) and only then attempt `block_domains` — the
attempt is wrapped in try/except and a failure (`applyFails`) is logged and
swallowed — followed by best-effort scheduling and alerting. Returns the new
state and the trace of side-effecting actions in order. -/
def evaluateDeviceState (nowSec nowUtc : Int) (device_id : String)
    (reports : List HBEntry) (recentPc : List Bool) (applyFails : Bool)
    (s : EnfState) : EnfState × List EnfAct :=
  let entries := loadRecentHeartbeats nowSec reports
  if evaluateTrigger entries recentPc then
    let br := mkBlockRecord nowUtc device_id
    let s1 : EnfState :=
      { s with blockRecords := s.blockRecords ++ [(freshId s.blockRecords, br)] }
    let applyRes : Except Unit (List Char) :=
      if applyFails then Except.error ()
      else Except.ok (blockDomains (BLOCK_DOMAINS_DEFAULT.map String.toList) s1.hosts)
    let s2 : EnfState :=
      match applyRes with
      | Except.error _ => s1
      | Except.ok h => { s1 with hosts := h }
    (s2, [EnfAct.persistRecord, EnfAct.applyBlockAttempt,
          EnfAct.scheduleUnblock, EnfAct.alertUser])
  else (s, [])

/-- C7: when the policy triggers, the new BlockRecord is persisted with
`active=true` before any mutation of the shared rule list is attempted (the
action trace puts the persist strictly before the apply attempt), and a
failure of the rule-list mutation is swallowed: the evaluation still returns
normally with the record persisted and still `active=true`, the rule list
untouched; on success the rule list gains the tagged entries. -/
theorem enforcement_record_persisted_before_apply
    (nowSec nowUtc : Int) (device_id : String) (reports : List HBEntry)
    (recentPc : List Bool) (applyFails : Bool) (s : EnfState)
    (htr : evaluateTrigger (loadRecentHeartbeats nowSec reports) recentPc = true) :
    ((evaluateDeviceState nowSec nowUtc device_id reports recentPc applyFails s).2
        = [EnfAct.persistRecord, EnfAct.applyBlockAttempt,
           EnfAct.scheduleUnblock, EnfAct.alertUser])
    ∧ (freshId s.blockRecords, mkBlockRecord nowUtc device_id)
        ∈ (evaluateDeviceState nowSec nowUtc device_id reports recentPc applyFails s).1.blockRecords
    ∧ (mkBlockRecord nowUtc device_id).active = true
    ∧ (applyFails = true →
        (evaluateDeviceState nowSec nowUtc device_id reports recentPc applyFails s).1.hosts
          = s.hosts)
    ∧ (applyFails = false →
        (evaluateDeviceState nowSec nowUtc device_id reports recentPc applyFails s).1.hosts
          = blockDomains (BLOCK_DOMAINS_DEFAULT.map String.toList) s.hosts) := by
  cases applyFails with
  | true =>
    have he : evaluateDeviceState nowSec nowUtc device_id reports recentPc true s
        = ({ s with blockRecords :=
              s.blockRecords ++ [(freshId s.blockRecords, mkBlockRecord nowUtc device_id)] },
           [EnfAct.persistRecord, EnfAct.applyBlockAttempt,
            EnfAct.scheduleUnblock, EnfAct.alertUser]) := by
      simp [evaluateDeviceState, htr]
    rw [he]
    exact ⟨rfl, by simp, rfl, fun _ => rfl, fun h => absurd h (by simp)⟩
  | false =>
    have he : evaluateDeviceState nowSec nowUtc device_id reports recentPc false s
        = ({ blockRecords :=
              s.blockRecords ++ [(freshId s.blockRecords, mkBlockRecord nowUtc device_id)],
             hosts := blockDomains (BLOCK_DOMAINS_DEFAULT.map String.toList) s.hosts },
           [EnfAct.persistRecord, EnfAct.applyBlockAttempt,
            EnfAct.scheduleUnblock, EnfAct.alertUser]) := by
      simp [evaluateDeviceState, htr]
    rw [he]
    exact ⟨rfl, by simp, rfl, fun h => absurd h (by simp), fun _ => rfl⟩

theorem enforcement_record_persisted_before_apply_witness :
    (evaluateDeviceState 0 0 "d1"
        [⟨0, true, "youtube".toList⟩, ⟨1, true, "youtube".toList⟩,
         ⟨2, true, "youtube".toList⟩] [true] true ⟨[], []⟩).2
      = [EnfAct.persistRecord, EnfAct.applyBlockAttempt,
         EnfAct.scheduleUnblock, EnfAct.alertUser] :=
  (enforcement_record_persisted_before_apply 0 0 "d1"
      [⟨0, true, "youtube".toList⟩, ⟨1, true, "youtube".toList⟩,
       ⟨2, true, "youtube".toList⟩] [true] true ⟨[], []⟩
      (by rw [evaluateTrigger_eq_true_iff]; refine ⟨by decide, by decide, by decide⟩)).1

/-- Definition following the spec's words, for comparison with the code: the
end of the current day in LOCAL time — the local date (the UTC instant shifted
by the timezone offset, both in microseconds) combined with the time
23:59:59.999, read as a naive local wall-clock value. -/
def specEndOfLocalDay (nowUtc tzOffset : Int) : Int :=
  (nowUtc + tzOffset) / MICROS_PER_DAY * MICROS_PER_DAY + 86399999000

/-- C9 counterexample: at the UTC instant 84600000000 μs (day 0, 23:30) the
triggered record's expiry is day 0 at 23:59:59.999999 — not the end of the
current day in local time: for a UTC-aligned timezone (offset 0) the spec
value ends at 23:59:59.999 (999000 μs, not 999999), and for a +1 h timezone
(offset 3600000000 μs) the local date is already day 1. -/
theorem expires_at_not_local_end_of_day :
    (mkBlockRecord 84600000000 "d1").expires_at ≠ specEndOfLocalDay 84600000000 0
    ∧ (mkBlockRecord 84600000000 "d1").expires_at ≠ specEndOfLocalDay 84600000000 3600000000 := by
  constructor
  · decide
  · decide

/-- C9 (amended): when the policy triggers, the created BlockRecord's
expires_at is the end of the current UTC day — the instant 23:59:59.999999 of
the UTC date of `utcnow()`, hence at or after `nowUtc` and before the next UTC
midnight — and the blocked domain list is the fixed configured
`BLOCK_DOMAINS_DEFAULT` list. -/
theorem block_record_expires_at_utc_end_of_day
    (nowSec nowUtc : Int) (device_id : String) (reports : List HBEntry)
    (recentPc : List Bool) (applyFails : Bool) (s : EnfState)
    (htr : evaluateTrigger (loadRecentHeartbeats nowSec reports) recentPc = true) :
    ∃ rec, (freshId s.blockRecords, rec)
        ∈ (evaluateDeviceState nowSec nowUtc device_id reports recentPc applyFails s).1.blockRecords
      ∧ rec.expires_at = nowUtc / MICROS_PER_DAY * MICROS_PER_DAY + 86399999999
      ∧ nowUtc ≤ rec.expires_at
      ∧ rec.expires_at < (nowUtc / MICROS_PER_DAY + 1) * MICROS_PER_DAY
      ∧ rec.domains = BLOCK_DOMAINS_DEFAULT := by
  refine ⟨mkBlockRecord nowUtc device_id, ?_, rfl, ?_, ?_, rfl⟩
  · cases applyFails <;> simp [evaluateDeviceState, htr]
  · show nowUtc ≤ endOfUtcDay nowUtc
    simp only [endOfUtcDay, MICROS_PER_DAY]
    omega
  · show endOfUtcDay nowUtc < (nowUtc / MICROS_PER_DAY + 1) * MICROS_PER_DAY
    simp only [endOfUtcDay, MICROS_PER_DAY]
    omega

theorem block_record_expires_at_utc_end_of_day_witness :
    ∃ rec, (0, rec)
        ∈ (evaluateDeviceState 0 84600000000 "d1"
            [⟨0, true, "youtube".toList⟩, ⟨1, true, "youtube".toList⟩,
             ⟨2, true, "youtube".toList⟩] [true] false ⟨[], []⟩).1.blockRecords
      ∧ rec.expires_at = (84600000000 : Int) / MICROS_PER_DAY * MICROS_PER_DAY + 86399999999
      ∧ (84600000000 : Int) ≤ rec.expires_at
      ∧ rec.expires_at < ((84600000000 : Int) / MICROS_PER_DAY + 1) * MICROS_PER_DAY
      ∧ rec.domains = BLOCK_DOMAINS_DEFAULT :=
  block_record_expires_at_utc_end_of_day 0 84600000000 "d1"
    [⟨0, true, "youtube".toList⟩, ⟨1, true, "youtube".toList⟩,
     ⟨2, true, "youtube".toList⟩] [true] false ⟨[], []⟩
    (by rw [evaluateTrigger_eq_true_iff]; refine ⟨by decide, by decide, by decide⟩)

/-- phone.py `scheduled_unblock`: load the BlockRecord by id; if absent or
already `active=False` return (no-op); else attempt `unblock_all` — wrapped
in try/except, a failure (`unblockFails`) is only logged — then set
`active=False` and commit. -/
def scheduledUnblock (unblockFails : Bool) (rid : Nat) (s : EnfState) : EnfState :=
  match alookup rid s.blockRecords with
  | none => s
  | some rec =>
    if rec.active = false then s
    else
      { blockRecords := aupdate rid { rec with active := false } s.blockRecords,
        hosts := if unblockFails then s.hosts else unblockAll s.hosts }

/-- C6: reversal of a BlockRecord is idempotent — if the loaded record is
absent or already `active=false` the reversal is a no-op; running the
reversal twice on the same record id gives exactly the state of running it
once (whatever the best-effort rule-list removal did each time); and a
successful reversal of an active record leaves the record `active=false` and
the rule list free of every marker-tagged line, that record's domains
included. -/
theorem scheduled_unblock_idempotent :
    (∀ (f : Bool) (rid : Nat) (s : EnfState),
        (alookup rid s.blockRecords = none
          ∨ ∃ rec, alookup rid s.blockRecords = some rec ∧ rec.active = false) →
        scheduledUnblock f rid s = s)
    ∧ (∀ (f f2 : Bool) (rid : Nat) (s : EnfState),
        scheduledUnblock f2 rid (scheduledUnblock f rid s) = scheduledUnblock f rid s)
    ∧ (∀ (rid : Nat) (s : EnfState) (rec : BlockRec),
        alookup rid s.blockRecords = some rec → rec.active = true →
        alookup rid (scheduledUnblock false rid s).blockRecords
            = some { rec with active := false }
          ∧ ∀ l ∈ splitLines (scheduledUnblock false rid s).hosts,
              hasSub BLOCK_MARK l = false) := by
  have hnoop : ∀ (f : Bool) (rid : Nat) (s : EnfState),
      (alookup rid s.blockRecords = none
        ∨ ∃ rec, alookup rid s.blockRecords = some rec ∧ rec.active = false) →
      scheduledUnblock f rid s = s := by
    intro f rid s h
    rcases h with h | ⟨rec, h, hact⟩
    · simp [scheduledUnblock, h]
    · simp [scheduledUnblock, h, hact]
  refine ⟨hnoop, ?_, ?_⟩
  · intro f f2 rid s
    cases hl : alookup rid s.blockRecords with
    | none =>
      rw [hnoop f rid s (Or.inl hl), hnoop f2 rid s (Or.inl hl)]
    | some rec =>
      cases hact : rec.active with
      | false =>
        have h1 := hnoop f rid s (Or.inr ⟨rec, hl, hact⟩)
        rw [h1, hnoop f2 rid s (Or.inr ⟨rec, hl, hact⟩)]
      | true =>
        have he : scheduledUnblock f rid s
            = { blockRecords := aupdate rid { rec with active := false } s.blockRecords,
                hosts := if f then s.hosts else unblockAll s.hosts } := by
          simp [scheduledUnblock, hl, hact]
        rw [he]
        apply hnoop
        right
        exact ⟨{ rec with active := false }, by simpa using alookup_aupdate_self rid _ s.blockRecords, rfl⟩
  · intro rid s rec hl hact
    have he : scheduledUnblock false rid s
        = { blockRecords := aupdate rid { rec with active := false } s.blockRecords,
            hosts := unblockAll s.hosts } := by
      simp [scheduledUnblock, hl, hact]
    rw [he]
    constructor
    · simpa using alookup_aupdate_self rid { rec with active := false } s.blockRecords
    · intro l hlm
      have hsp : l ∈ (splitLines s.hosts).filter (fun x => !hasSub BLOCK_MARK x) := by
        rw [← splitLines_unblockAll]
        exact hlm
      have := List.of_mem_filter hsp
      simpa using this

theorem scheduled_unblock_idempotent_witness :
    scheduledUnblock true 0 (⟨[], ['a']⟩ : EnfState) = (⟨[], ['a']⟩ : EnfState)
    ∧ scheduledUnblock true 1
        (scheduledUnblock false 1
          (⟨[(1, ⟨0, 1, [], true, "r"⟩)], ['a', '\n']⟩ : EnfState))
      = scheduledUnblock false 1
          (⟨[(1, ⟨0, 1, [], true, "r"⟩)], ['a', '\n']⟩ : EnfState) :=
  ⟨scheduled_unblock_idempotent.1 true 0 ⟨[], ['a']⟩ (Or.inl (by decide)),
   scheduled_unblock_idempotent.2.1 false true 1
     ⟨[(1, ⟨0, 1, [], true, "r"⟩)], ['a', '\n']⟩⟩

/-! ### Backup helper and manual unblock
(blocker/backup_helper.py, blocker/manual_unblock.py) -/

/-- Filesystem state seen by the blocker: the hosts file and the backup
directory. Backup file names `hosts_%Y%m%d_%H%M%S.bak` are modelled by their
whole-second timestamps, whose numeric order agrees with the lexicographic
order of the names. -/
structure BlockerFs where
  hosts : List Char
  backups : List (Int × List Char)
deriving DecidableEq, Repr

/-- backup_helper.py `backup_hosts`: copy the hosts file to a backup named by
the current time; `shutil.copy` onto an existing name overwrites it. -/
def backupHosts (now : Int) (fs : BlockerFs) : BlockerFs :=
  { fs with backups := (now, fs.hosts) :: fs.backups.filter (fun b => !decide (b.1 = now)) }

/-- The backup with the greatest name: the head of
`sorted(BACKUP_DIR.glob("hosts_*.bak"), reverse=True)`. -/
def latestBackup : List (Int × List Char) → Option (Int × List Char)
  | [] => none
  | b :: rest =>
    match latestBackup rest with
    | none => some b
    | some m => if b.1 < m.1 then some m else some b

/-- backup_helper.py `restore_latest_backup`: copy the newest backup, if any,
back over the hosts file. -/
def restoreLatestBackup (fs : BlockerFs) : BlockerFs :=
  match latestBackup fs.backups with
  | none => fs
  | some b => { fs with hosts := b.2 }

/-- manual_unblock.py `manual_unblock` endpoint body:
`backup_hosts(); restore_latest_backup(); unblock_all()`. -/
def manualUnblock (now : Int) (fs : BlockerFs) : BlockerFs :=
  let fs1 := backupHosts now fs
  let fs2 := restoreLatestBackup fs1
  { fs2 with hosts := unblockAll fs2.hosts }

theorem latestBackup_mem :
    ∀ (l : List (Int × List Char)) (m : Int × List Char),
      latestBackup l = some m → m ∈ l := by
  intro l
  induction l with
  | nil => intro m h; simp [latestBackup] at h
  | cons b rest ih =>
    intro m h
    rw [latestBackup] at h
    cases hr : latestBackup rest with
    | none =>
      rw [hr] at h
      simp only [Option.some_inj] at h
      simp [← h]
    | some m' =>
      rw [hr] at h
      dsimp only at h
      by_cases hlt : b.1 < m'.1
      · rw [if_pos hlt, Option.some_inj] at h
        exact List.mem_cons_of_mem b (ih m (by rw [hr, ← h]))
      · rw [if_neg hlt, Option.some_inj] at h
        simp [← h]

/-- C10: provided the clock is monotone (no existing backup is newer than the
snapshot being taken — the situation the code can itself produce), the
manual-unblock endpoint first snapshots the rule-list file and then restores
the latest snapshot, which is the snapshot it just took, so the restoration
leaves the file's content unchanged, and the endpoint's net effect on the
rule list equals `unblock_all` applied to the content at call time. -/
theorem manual_unblock_refines_unblock_all (now : Int) (fs : BlockerFs)
    (hmono : ∀ b ∈ fs.backups, b.1 ≤ now) :
    latestBackup (backupHosts now fs).backups = some (now, fs.hosts)
    ∧ (restoreLatestBackup (backupHosts now fs)).hosts = fs.hosts
    ∧ (manualUnblock now fs).hosts = unblockAll fs.hosts := by
  have hlb : latestBackup (backupHosts now fs).backups = some (now, fs.hosts) := by
    rw [backupHosts, latestBackup]
    cases hr : latestBackup (fs.backups.filter (fun b => !decide (b.1 = now))) with
    | none => rfl
    | some m =>
      have hm : m ∈ fs.backups.filter (fun b => !decide (b.1 = now)) :=
        latestBackup_mem _ m hr
      have hle : m.1 ≤ now := hmono m (List.mem_of_mem_filter hm)
      have hne : ¬ m.1 = now := by
        have := List.of_mem_filter hm
        simpa using this
      dsimp only
      rw [if_neg (by omega : ¬ now < m.1)]
  refine ⟨hlb, ?_, ?_⟩
  · rw [restoreLatestBackup, hlb]
  · rw [manualUnblock]
    simp only [restoreLatestBackup, hlb]

theorem manual_unblock_refines_unblock_all_witness :
    (manualUnblock 5 (⟨['a', '\n'], [(0, ['b'])]⟩ : BlockerFs)).hosts
      = unblockAll ['a', '\n'] :=
  (manual_unblock_refines_unblock_all 5 ⟨['a', '\n'], [(0, ['b'])]⟩ (by decide)).2.2

end ProdTracker
